import Mathlib

/-!
Verification of the C09 offline analytics engine (stay aggregation,
trajectory computation, occupancy candles, deviation alerting).

Shallow embedding conventions:
* timestamps are `Int` seconds (pandas `Timestamp` arithmetic is exact at
  second granularity in this code base);
* durations in hours are `ℚ`; `round(x, 5)` / `round(x, 2)` become `round5`
  / `round2` below;
* a pandas `DataFrame` of homogeneous rows is a `List` of a structure;
* the Python `set` used for the present-vehicle set is a `Finset String`
  (`add` is `insert`, `discard` is `erase`, matching the no-op-on-absent
  behaviour of `discard`);
* `pandas.sort_values` (sort by one key, tie order unspecified by the
  source) is an insertion sort on the same key.
-/

/-- `round(x, 5)` of the source (5-decimal rounding) on rationals. -/
def round5 (x : ℚ) : ℚ := (round (x * 100000) : ℚ) / 100000

/-- `round(x, 2)` of the source (2-decimal rounding) on rationals. -/
def round2 (x : ℚ) : ℚ := (round (x * 100) : ℚ) / 100

/-- `Timestamp.floor('h')`: round a timestamp (seconds) down to the hour. -/
def floorHora (t : Int) : Int := 3600 * (t / 3600)

/-- `Timestamp.ceil('h')`: round a timestamp (seconds) up to the hour. -/
def ceilHora (t : Int) : Int := -floorHora (-t)

/-- One raw C09 visit row (columns `Veículo`, `Ponto de Interesse`,
`Data Entrada`, `Data Saída`, `Observações`). -/
structure RawVisit where
  veiculo : String
  ponto : String
  entrada : Int
  saida : Int
  obs : String
  deriving DecidableEq, Repr

/-- One treated stay row as produced by `_agrupar_registros_consecutivos`
(and later annotated by `_calcular_trajetos`). -/
structure Stay where
  veiculo : String
  ponto : String
  entrada : Int
  saida : Int
  grupo : String
  obs : String
  tempo : ℚ
  trajetoCarregado : ℚ
  trajetoVazio : ℚ
  deriving DecidableEq, Repr

/-- `_classificar_grupo`: POI → group lookup with default `"Outros"`.
The Python dict `mapa_grupos` is abstracted as a finite map
`String → Option String`. -/
def classificarGrupo (mapa : String → Option String) (ponto : String) : String :=
  (mapa ponto).getD "Outros"

/-- Build the stay for one run of consecutive records: all identifying
fields come from the first record of the run, the exit timestamp from the
last, and `Tempo (h)` is the dwell in hours rounded to 5 decimals
(the `Tempo (h)` column computed right after the grouping loop). -/
def stayDe (mapa : String → Option String) (primeiro ultimo : RawVisit) : Stay :=
  { veiculo := primeiro.veiculo
    ponto := primeiro.ponto
    entrada := primeiro.entrada
    saida := ultimo.saida
    grupo := classificarGrupo mapa primeiro.ponto
    obs := primeiro.obs
    tempo := round5 (((ultimo.saida - primeiro.entrada : Int) : ℚ) / 3600)
    trajetoCarregado := 0
    trajetoVazio := 0 }

/-- Predicate for the inner `while` of `_agrupar_registros_consecutivos`:
the next record continues the current run. -/
def mesmoVeiculoPonto (veic ponto : String) (r : RawVisit) : Bool :=
  r.veiculo = veic && r.ponto = ponto

/-- The inner `while` loop of `_agrupar_registros_consecutivos`: split off
the records that continue the run of `(veic, ponto)` from the rest. -/
def spanRun (veic ponto : String) : List RawVisit → List RawVisit × List RawVisit
  | [] => ([], [])
  | r :: rs =>
    if mesmoVeiculoPonto veic ponto r then
      let p := spanRun veic ponto rs
      (r :: p.1, p.2)
    else ([], r :: rs)

theorem spanRun_eq_takeWhile_dropWhile (veic ponto : String) (l : List RawVisit) :
    spanRun veic ponto l =
      (l.takeWhile (mesmoVeiculoPonto veic ponto),
       l.dropWhile (mesmoVeiculoPonto veic ponto)) := by
  induction l with
  | nil => rfl
  | cons r rs ih =>
    by_cases h : mesmoVeiculoPonto veic ponto r
    · simp [spanRun, List.takeWhile_cons, List.dropWhile_cons, h, ih]
    · simp [spanRun, List.takeWhile_cons, List.dropWhile_cons, h]

theorem spanRun_snd_length_le (veic ponto : String) (l : List RawVisit) :
    (spanRun veic ponto l).2.length ≤ l.length := by
  rw [spanRun_eq_takeWhile_dropWhile]
  exact (List.dropWhile_sublist _).length_le

/-- `_agrupar_registros_consecutivos`: one scan over the (already sorted)
raw rows; a new stay opens at each record whose (vehicle, POI) differs
from the previous record, and while consecutive records share
(vehicle, POI) the open stay's exit is advanced to theirs. -/
def agruparRegistrosConsecutivos (mapa : String → Option String) :
    List RawVisit → List Stay
  | [] => []
  | r :: rs =>
    let p := spanRun r.veiculo r.ponto rs
    stayDe mapa r (p.1.getLastD r) :: agruparRegistrosConsecutivos mapa p.2
  termination_by l => l.length
  decreasing_by
    simpa using Nat.lt_succ_of_le (spanRun_snd_length_le r.veiculo r.ponto rs)

/-- Two raw records share the grouping key (same vehicle, same POI). -/
def mesmaChave (a b : RawVisit) : Prop := a.veiculo = b.veiculo ∧ a.ponto = b.ponto

instance : DecidablePred fun p : RawVisit × RawVisit => mesmaChave p.1 p.2 := by
  intro p; unfold mesmaChave; infer_instance

/-- Spec-side decomposition of a record list into its maximal runs of
consecutive records sharing (vehicle, POI). -/
def chunksBy : List RawVisit → List (List RawVisit)
  | [] => []
  | r :: rs =>
    (r :: rs.takeWhile (mesmoVeiculoPonto r.veiculo r.ponto)) ::
      chunksBy (rs.dropWhile (mesmoVeiculoPonto r.veiculo r.ponto))
  termination_by l => l.length
  decreasing_by
    simpa using Nat.lt_succ_of_le (List.dropWhile_sublist _).length_le

/-- Spec-side collapse of one run into a stay: entry from the first
record, exit from the last record of the run. -/
def colapsa (mapa : String → Option String) (dflt : RawVisit)
    (c : List RawVisit) : Stay :=
  stayDe mapa (c.headD dflt) (c.getLastD dflt)

theorem chunksBy_flatten (l : List RawVisit) : (chunksBy l).flatten = l := by
  induction l using chunksBy.induct with
  | case1 => rw [chunksBy]; rfl
  | case2 r rs ih =>
    rw [chunksBy]
    simp only [List.flatten_cons, List.cons_append, ih]
    rw [List.takeWhile_append_dropWhile]

theorem chunksBy_ne_nil (l : List RawVisit) :
    ∀ c ∈ chunksBy l, c ≠ [] := by
  induction l using chunksBy.induct with
  | case1 => intro c hc; rw [chunksBy] at hc; simp at hc
  | case2 r rs ih =>
    intro c hc
    rw [chunksBy] at hc
    rcases List.mem_cons.1 hc with hc | hc
    · simp [hc]
    · exact ih c hc

theorem chunksBy_homog (l : List RawVisit) :
    ∀ c ∈ chunksBy l, ∀ a ∈ c, ∀ b ∈ c, mesmaChave a b := by
  induction l using chunksBy.induct with
  | case1 => intro c hc; rw [chunksBy] at hc; simp at hc
  | case2 r rs ih =>
    intro c hc
    rw [chunksBy] at hc
    rcases List.mem_cons.1 hc with hc | hc
    · subst hc
      have key : ∀ a ∈ r :: rs.takeWhile (mesmoVeiculoPonto r.veiculo r.ponto),
          a.veiculo = r.veiculo ∧ a.ponto = r.ponto := by
        intro a ha
        rcases List.mem_cons.1 ha with ha | ha
        · subst ha; exact ⟨rfl, rfl⟩
        · have := List.mem_takeWhile_imp ha
          simpa [mesmoVeiculoPonto] using this
      intro a ha b hb
      obtain ⟨hav, hap⟩ := key a ha
      obtain ⟨hbv, hbp⟩ := key b hb
      exact ⟨hav.trans hbv.symm, hap.trans hbp.symm⟩
    · exact ih c hc

theorem head_dropWhile_false {p : RawVisit → Bool} {l : List RawVisit}
    {x : RawVisit} {xs : List RawVisit} (h : l.dropWhile p = x :: xs) :
    p x = false := by
  induction l with
  | nil => simp at h
  | cons a as ih =>
    rw [List.dropWhile_cons] at h
    by_cases ha : p a
    · rw [if_pos ha] at h; exact ih h
    · rw [if_neg ha] at h
      cases h
      simpa using ha

theorem chunksBy_boundary (l : List RawVisit) :
    List.Chain' (fun c₁ c₂ => ∀ a ∈ c₁, ∀ b ∈ c₂, ¬ mesmaChave a b) (chunksBy l) := by
  induction l using chunksBy.induct with
  | case1 => rw [chunksBy]; exact List.chain'_nil
  | case2 r rs ih =>
    rw [chunksBy]
    rw [List.chain'_cons']
    refine ⟨?_, ih⟩
    intro c₂ hc₂ a ha b hb
    set rest := rs.dropWhile (mesmoVeiculoPonto r.veiculo r.ponto) with hrest
    cases hr : rest with
    | nil => rw [hr, chunksBy] at hc₂; simp at hc₂
    | cons r' rs' =>
      rw [hr, chunksBy] at hc₂
      simp only [List.head?_cons, Option.mem_def, Option.some.injEq] at hc₂
      have hmem : (r' :: rs'.takeWhile (mesmoVeiculoPonto r'.veiculo r'.ponto)) ∈
          chunksBy (r' :: rs') := by
        rw [chunksBy]; exact List.mem_cons_self _ _
      have hb' : b ∈ r' :: rs'.takeWhile (mesmoVeiculoPonto r'.veiculo r'.ponto) := by
        rw [hc₂]; exact hb
      have hbr' : mesmaChave b r' :=
        chunksBy_homog (r' :: rs') _ hmem b hb' r' (List.mem_cons_self _ _)
      have har : mesmaChave a r := by
        rcases List.mem_cons.1 ha with ha | ha
        · subst ha; exact ⟨rfl, rfl⟩
        · have := List.mem_takeWhile_imp ha
          simp only [mesmoVeiculoPonto, Bool.and_eq_true, decide_eq_true_eq] at this
          exact this
      have hkey : mesmoVeiculoPonto r.veiculo r.ponto r' = false :=
        head_dropWhile_false (hrest.symm.trans hr)
      intro hab
      apply absurd hkey
      simp only [mesmoVeiculoPonto, Bool.and_eq_true, decide_eq_true_eq,
        Bool.not_eq_false]
      obtain ⟨hav, hap⟩ := har
      obtain ⟨hbv, hbp⟩ := hbr'
      obtain ⟨habv, habp⟩ := hab
      exact ⟨by rw [← hbv, ← habv, hav], by rw [← hbp, ← habp, hap]⟩

theorem agrupar_eq_map_colapsa (mapa : String → Option String) (dflt : RawVisit)
    (l : List RawVisit) :
    agruparRegistrosConsecutivos mapa l = (chunksBy l).map (colapsa mapa dflt) := by
  induction l using chunksBy.induct with
  | case1 => rw [agruparRegistrosConsecutivos, chunksBy]; rfl
  | case2 r rs ih =>
    rw [agruparRegistrosConsecutivos, chunksBy]
    simp only [spanRun_eq_takeWhile_dropWhile, List.map_cons, ih]
    congr 1
    unfold colapsa
    rw [List.headD_cons, List.getLastD_cons]

theorem chunksBy_infix (l : List RawVisit) :
    ∀ c ∈ chunksBy l, c <:+: l := by
  intro c hc
  have := List.infix_of_mem_flatten hc
  rwa [chunksBy_flatten] at this

theorem mem_headD {l : List RawVisit} (h : l ≠ []) (d : RawVisit) :
    l.headD d ∈ l := by
  cases l with
  | nil => exact absurd rfl h
  | cons a as => simp

theorem mem_getLastD {l : List RawVisit} (h : l ≠ []) (d : RawVisit) :
    l.getLastD d ∈ l := by
  induction l generalizing d with
  | nil => exact absurd rfl h
  | cons a as ih =>
    rw [List.getLastD_cons]
    cases as with
    | nil => simp [List.getLastD]
    | cons b bs => exact List.mem_cons_of_mem a (ih (by simp) a)

/-- Within a list whose records all share the same vehicle, the
(vehicle, entry)-sortedness hypothesis makes entry timestamps
non-decreasing from the first record to the last. -/
theorem entrada_headD_le_getLastD (c : List RawVisit)
    (hchain : c.Chain' fun a b => a.veiculo = b.veiculo → a.entrada ≤ b.entrada)
    (hhomog : ∀ a ∈ c, ∀ b ∈ c, mesmaChave a b)
    (hne : c ≠ []) (d : RawVisit) :
    (c.headD d).entrada ≤ (c.getLastD d).entrada := by
  induction c generalizing d with
  | nil => exact absurd rfl hne
  | cons a as ih =>
    rw [List.headD_cons, List.getLastD_cons]
    cases as with
    | nil => simp [List.getLastD]
    | cons b bs =>
      have hab : a.entrada ≤ b.entrada := by
        have hrel := (List.chain'_cons.1 hchain).1
        exact hrel (hhomog a (by simp) b (by simp)).1
      have hrest := ih (List.chain'_cons.1 hchain).2
        (fun x hx y hy => hhomog x (List.mem_cons_of_mem a hx)
          y (List.mem_cons_of_mem a hy)) (by simp) a
      calc a.entrada ≤ b.entrada := hab
        _ ≤ ((b :: bs).getLastD a).entrada := by
            rw [List.headD_cons] at hrest; exact hrest

/-- Membership of `grupo in ["Carregamento", "Fabrica"]` (loading / factory
variant). -/
def grupoCargaB (g : String) : Bool := g = "Carregamento" || g = "Fabrica"

/-- Membership of `grupo in ["Descarregamento", "Terminal"]` (unloading /
terminal variant). -/
def grupoDescargaB (g : String) : Bool := g = "Descarregamento" || g = "Terminal"

/-- The inner `for j in range(i+1, len(df_ag))` scan of `_calcular_trajetos`
for a loading stay: walk the subsequent stays, stop (value 0) at the first
stay of another vehicle, and at the first unloading/terminal stay of the
same vehicle return the transit time in hours rounded to 5 decimals when
its entry is at or after the loading stay's exit, else 0 (the scan breaks
there either way). -/
def buscaTrajetoCarregado (veic : String) (saidaAtual : Int) : List Stay → ℚ
  | [] => 0
  | s :: rest =>
    if s.veiculo ≠ veic then 0
    else if grupoDescargaB s.grupo then
      if s.entrada ≥ saidaAtual then
        round5 (((s.entrada - saidaAtual : Int) : ℚ) / 3600)
      else 0
    else buscaTrajetoCarregado veic saidaAtual rest

/-- The symmetric scan for an unloading/terminal stay: transit empty, to
the first loading/factory stay of the same vehicle. -/
def buscaTrajetoVazio (veic : String) (saidaAtual : Int) : List Stay → ℚ
  | [] => 0
  | s :: rest =>
    if s.veiculo ≠ veic then 0
    else if grupoCargaB s.grupo then
      if s.entrada ≥ saidaAtual then
        round5 (((s.entrada - saidaAtual : Int) : ℚ) / 3600)
      else 0
    else buscaTrajetoVazio veic saidaAtual rest

/-- One row of the `_calcular_trajetos` outer loop.  The loop writes only
`Trajeto Carregado`, `Trajeto Vazio` and `Observação` and reads only the
untouched columns, so each row is a pure function of the stay and of the
list of stays after it.  The textual SLA-breach annotation appended to
`Observação` is not modelled (no claim refers to it). -/
def aplicaTrajetoUm (s : Stay) (rest : List Stay) : Stay :=
  if grupoCargaB s.grupo then
    { s with trajetoCarregado := buscaTrajetoCarregado s.veiculo s.saida rest }
  else if grupoDescargaB s.grupo then
    { s with trajetoVazio := buscaTrajetoVazio s.veiculo s.saida rest }
  else s

/-- `_calcular_trajetos`: annotate every stay with its transit times,
scanning only the stays after it. -/
def calcularTrajetos : List Stay → List Stay
  | [] => []
  | s :: rest => aplicaTrajetoUm s rest :: calcularTrajetos rest

theorem calcularTrajetos_get? (ss : List Stay) (i : Nat) :
    (calcularTrajetos ss).get? i = (ss.get? i).map fun s =>
      aplicaTrajetoUm s (ss.drop (i + 1)) := by
  induction ss generalizing i with
  | nil => simp [calcularTrajetos]
  | cons s rest ih =>
    cases i with
    | zero => simp [calcularTrajetos]
    | succ n => simpa [calcularTrajetos] using ih n

theorem buscaTrajetoCarregado_primeiro (veic : String) (saidaAtual : Int) :
    ∀ pre (m : Stay) post,
      (∀ p ∈ pre, p.veiculo = veic ∧ grupoDescargaB p.grupo = false) →
      m.veiculo = veic → grupoDescargaB m.grupo = true →
      buscaTrajetoCarregado veic saidaAtual (pre ++ m :: post) =
        if m.entrada ≥ saidaAtual then
          round5 (((m.entrada - saidaAtual : Int) : ℚ) / 3600)
        else 0 := by
  intro pre
  induction pre with
  | nil =>
    intro m post _ hv hg
    simp [buscaTrajetoCarregado, hv, hg]
  | cons p ps ih =>
    intro m post hpre hv hg
    obtain ⟨hpv, hpg⟩ := hpre p (by simp)
    rw [List.cons_append, buscaTrajetoCarregado]
    simp only [hpv, hpg, ite_true, ite_false, ne_eq, not_true_eq_false,
      Bool.false_eq_true, if_false]
    exact ih m post (fun q hq => hpre q (List.mem_cons_of_mem p hq)) hv hg

theorem buscaTrajetoCarregado_outro_veiculo (veic : String) (saidaAtual : Int) :
    ∀ pre (d : Stay) post,
      (∀ p ∈ pre, p.veiculo = veic ∧ grupoDescargaB p.grupo = false) →
      d.veiculo ≠ veic →
      buscaTrajetoCarregado veic saidaAtual (pre ++ d :: post) = 0 := by
  intro pre
  induction pre with
  | nil =>
    intro d post _ hv
    simp [buscaTrajetoCarregado, hv]
  | cons p ps ih =>
    intro d post hpre hv
    obtain ⟨hpv, hpg⟩ := hpre p (by simp)
    rw [List.cons_append, buscaTrajetoCarregado]
    simp only [hpv, hpg, ne_eq, not_true_eq_false, Bool.false_eq_true, if_false]
    exact ih d post (fun q hq => hpre q (List.mem_cons_of_mem p hq)) hv

theorem buscaTrajetoCarregado_sem_match (veic : String) (saidaAtual : Int) :
    ∀ l, (∀ p ∈ l, p.veiculo = veic → grupoDescargaB p.grupo = false) →
      buscaTrajetoCarregado veic saidaAtual l = 0 := by
  intro l
  induction l with
  | nil => intro _; rfl
  | cons p ps ih =>
    intro h
    rw [buscaTrajetoCarregado]
    by_cases hv : p.veiculo = veic
    · have hg := h p (by simp) hv
      simp only [hv, ne_eq, not_true_eq_false, if_false, hg, Bool.false_eq_true]
      exact ih fun q hq => h q (List.mem_cons_of_mem p hq)
    · simp [hv]

/-- Event kind: `'entrada'` or `'saida'`. -/
inductive TipoEvento where
  | entrada
  | saida
  deriving DecidableEq, Repr

/-- One occupancy event row (columns `Veículo`, `Data Evento`, `Evento`,
`POI`). -/
structure Evento where
  veiculo : String
  data : Int
  tipo : TipoEvento
  poi : String
  deriving DecidableEq, Repr

/-- `PADROES_AINDA_NO_POI`: the fixed phrases meaning the vehicle is still
at the POI past the report window. -/
def padroesAindaNoPoi : List String :=
  ["permaneceu no poi após o fim do período pesquisado",
   "permaneceu no poi após o fim do período",
   "ainda permanece no local",
   "continua no ponto de interesse",
   "período pesquisado finalizado",
   "veículo permaneceu no poi"]

/-- Python's `pat in s` on the character lists of two strings. -/
def contemSub (pat : List Char) : List Char → Bool
  | [] => pat.isEmpty
  | c :: rest => pat.isPrefixOf (c :: rest) || contemSub pat rest

/-- Python `str.lower` on one character: the Unicode simple lowercase
mapping restricted to the Latin ranges the data can contain — ASCII
`A`–`Z` and the Latin-1 uppercase letters `À`–`Þ` except `×` (codepoints
192–222 except 215), each lowered by adding 32.  This covers every
accented capital of Portuguese observation text (`Í`, `Ó`, `Á`, `Ç`,
`Ã`, …) exactly as `str.lower` does. -/
def minusculaLatina (c : Char) : Char :=
  if 65 ≤ c.toNat ∧ c.toNat ≤ 90 then Char.ofNat (c.toNat + 32)
  else if 192 ≤ c.toNat ∧ c.toNat ≤ 222 ∧ c.toNat ≠ 215 then
    Char.ofNat (c.toNat + 32)
  else c

/-- Python `str.strip` whitespace. -/
def ehEspacoBranco (c : Char) : Bool :=
  c = ' ' || c = '\t' || c = '\n' || c = '\r' || c.toNat = 11 || c.toNat = 12

/-- Python `str.strip`: drop leading and trailing whitespace. -/
def tiraEspacos (l : List Char) : List Char :=
  ((l.dropWhile ehEspacoBranco).reverse.dropWhile ehEspacoBranco).reverse

/-- `veiculo_ainda_esta_no_poi`: lower-case and strip the observation,
then test each still-present phrase for substring containment. -/
def veiculoAindaEstaNoPoi (observacao : String) : Bool :=
  padroesAindaNoPoi.any fun padrao =>
    contemSub padrao.toList (tiraEspacos (observacao.toList.map minusculaLatina))

/-- The arrival-event rows: every treated row yields one, at its entry
timestamp. -/
def eventosEntrada (poi : String) (rows : List RawVisit) : List Evento :=
  rows.map fun r => ⟨r.veiculo, r.entrada, .entrada, poi⟩

/-- The departure-event loop: rows whose observation matches a
still-present phrase are skipped entirely, the rest yield a departure
at their exit timestamp. -/
def eventosSaida (poi : String) : List RawVisit → List Evento
  | [] => []
  | r :: rest =>
    if veiculoAindaEstaNoPoi r.obs then eventosSaida poi rest
    else ⟨r.veiculo, r.saida, .saida, poi⟩ :: eventosSaida poi rest

/-- Stable insertion into a list sorted by `key`. -/
def insereOrdenado {α : Type} (key : α → Int) (e : α) : List α → List α
  | [] => [e]
  | x :: xs => if key x ≤ key e then x :: insereOrdenado key e xs else e :: x :: xs

/-- `sort_values` by a single key.  The source leaves the order of
equal-key rows unspecified; this stable insertion sort fixes one
deterministic choice. -/
def ordenaPor {α : Type} (key : α → Int) : List α → List α
  | [] => []
  | x :: xs => insereOrdenado key x (ordenaPor key xs)

theorem insereOrdenado_perm {α : Type} (key : α → Int) (e : α) (l : List α) :
    (insereOrdenado key e l).Perm (e :: l) := by
  induction l with
  | nil => rfl
  | cons x xs ih =>
    rw [insereOrdenado]
    by_cases h : key x ≤ key e
    · rw [if_pos h]
      exact (ih.cons x).trans (List.Perm.swap e x xs)
    · rw [if_neg h]

theorem ordenaPor_perm {α : Type} (key : α → Int) (l : List α) :
    (ordenaPor key l).Perm l := by
  induction l with
  | nil => rfl
  | cons x xs ih =>
    rw [ordenaPor]
    exact (insereOrdenado_perm key x (ordenaPor key xs)).trans (ih.cons x)

theorem mem_ordenaPor {α : Type} (key : α → Int) (l : List α) (a : α) :
    a ∈ ordenaPor key l ↔ a ∈ l :=
  (ordenaPor_perm key l).mem_iff

/-- The merged, chronologically sorted event list of one POI
(`pd.concat` of arrivals and departures, then `sort_values` by
`Data Evento`). -/
def eventosDe (poi : String) (rows : List RawVisit) : List Evento :=
  ordenaPor (fun e => e.data) (eventosEntrada poi rows ++ eventosSaida poi rows)

theorem eventosSaida_eq_filter_map (poi : String) (rows : List RawVisit) :
    eventosSaida poi rows =
      (rows.filter fun r => ¬ veiculoAindaEstaNoPoi r.obs).map
        fun r => ⟨r.veiculo, r.saida, .saida, poi⟩ := by
  induction rows with
  | nil => rfl
  | cons r rest ih =>
    rw [eventosSaida, List.filter_cons]
    by_cases h : veiculoAindaEstaNoPoi r.obs
    · simp [h, ih]
    · simp [h, ih]

/-- One step of the present-vehicle set walk: arrival `add`s the plate,
departure `discard`s it (no-op when absent). -/
def aplicaEvento (dentro : Finset String) (e : Evento) : Finset String :=
  match e.tipo with
  | .entrada => insert e.veiculo dentro
  | .saida => dentro.erase e.veiculo

/-- The `Veículos no POI` column: walk the sorted events and record the
present-vehicle set right after each event. -/
def instantaneos (dentro : Finset String) : List Evento → List (Finset String)
  | [] => []
  | e :: rest =>
    let d := aplicaEvento dentro e
    d :: instantaneos d rest

theorem instantaneos_get? (evs : List Evento) (dentro : Finset String) (k : Nat) :
    (instantaneos dentro evs).get? k =
      if k < evs.length then
        some ((evs.take (k + 1)).foldl aplicaEvento dentro)
      else none := by
  induction evs generalizing dentro k with
  | nil => simp [instantaneos]
  | cons e rest ih =>
    cases k with
    | zero => simp [instantaneos]
    | succ n =>
      rw [instantaneos]
      simp only [List.get?_cons_succ, List.length_cons, List.take_succ_cons,
        List.foldl_cons]
      rw [ih]
      simp [Nat.succ_lt_succ_iff]

/-- One step of the hourly replay: the running occupant count is
incremented on arrival and decremented on departure unconditionally,
while the present-vehicle set uses `add` / `discard`. -/
def passoContagem (linha : Int) (dentro : Finset String) (e : Evento) :
    Int × Finset String :=
  match e.tipo with
  | .entrada => (linha + 1, insert e.veiculo dentro)
  | .saida => (linha - 1, dentro.erase e.veiculo)

/-- The inner per-bucket replay of `gerar_candles_poi`: fold the bucket's
events, tracking the count, the set, and the max/min counts observed. -/
def replayHora : List Evento → Int → Finset String → Int → Int →
    Int × Finset String × Int × Int
  | [], linha, dentro, mx, mn => (linha, dentro, mx, mn)
  | e :: rest, linha, dentro, mx, mn =>
    let p := passoContagem linha dentro e
    replayHora rest p.1 p.2 (max mx p.1) (min mn p.1)

/-- One row of the `Resumo por Hora` output. -/
structure Candle where
  hora : Int
  inicio : Int
  fim : Int
  maximo : Int
  minimo : Int
  poi : String
  presentes : Finset String
  deriving DecidableEq

/-- The outer hour loop of `gerar_candles_poi`: one bucket per consecutive
timeline pair; `inicio` is the previous bucket's end count, max/min are
seeded at the pre-bucket count, and the count and set persist across
buckets. -/
def resumoAux (eventos : List Evento) (poi : String) :
    Nat → Int → Int → Finset String → Int → List Candle
  | 0, _, _, _, _ => []
  | n + 1, horaIni, linha, dentro, fimAnterior =>
    let evs := eventos.filter fun e => horaIni ≤ e.data && e.data < horaIni + 3600
    let q := replayHora evs linha dentro linha linha
    { hora := horaIni + 3600
      inicio := fimAnterior
      fim := q.1
      maximo := q.2.2.1
      minimo := q.2.2.2
      poi := poi
      presentes := q.2.1 } :: resumoAux eventos poi n (horaIni + 3600) q.1 q.2.1 q.1

/-- The `Resumo por Hora` series for one POI: timeline from the floor of
the earliest event to the ceiling of the latest, one bucket per hour;
empty events yield an empty series. -/
def resumoPorHora (poi : String) (eventos : List Evento) : List Candle :=
  match (eventos.map fun e => e.data).min?, (eventos.map fun e => e.data).max? with
  | some tmin, some tmax =>
    let inicio := floorHora tmin
    let fim := ceilHora tmax
    resumoAux eventos poi ((fim - inicio) / 3600).toNat inicio 0 ∅ 0
  | _, _ => []

/-- `gerar_candles_poi` for one POI's treated rows: the sorted event list
and its hourly summary. -/
def gerarCandlesPoi (poi : String) (rows : List RawVisit) :
    List Evento × List Candle :=
  let eventos := eventosDe poi rows
  (eventos, resumoPorHora poi eventos)

theorem resumoAux_head_inicio (eventos : List Evento) (poi : String)
    (n : Nat) (horaIni linha : Int) (dentro : Finset String) (fimAnterior : Int)
    (c : Candle) (h : (resumoAux eventos poi n horaIni linha dentro fimAnterior).head? = some c) :
    c.inicio = fimAnterior := by
  cases n with
  | zero => simp [resumoAux] at h
  | succ m =>
    rw [resumoAux] at h
    simp only [List.head?_cons, Option.some.injEq] at h
    rw [← h]

theorem resumoAux_adjacente (eventos : List Evento) (poi : String) :
    ∀ (n : Nat) (horaIni linha : Int) (dentro : Finset String) (fimAnterior : Int)
      (k : Nat) (c₁ c₂ : Candle),
      (resumoAux eventos poi n horaIni linha dentro fimAnterior).get? k = some c₁ →
      (resumoAux eventos poi n horaIni linha dentro fimAnterior).get? (k + 1) = some c₂ →
      c₂.inicio = c₁.fim := by
  intro n
  induction n with
  | zero =>
    intro horaIni linha dentro fimAnterior k c₁ c₂ h₁ _
    simp [resumoAux] at h₁
  | succ m ih =>
    intro horaIni linha dentro fimAnterior k c₁ c₂ h₁ h₂
    rw [resumoAux] at h₁ h₂
    cases k with
    | zero =>
      simp only [List.get?_cons_zero, Option.some.injEq] at h₁
      simp only [List.get?_cons_succ] at h₂
      have := resumoAux_head_inicio eventos poi m _ _ _ _ c₂ (by
        rwa [← List.get?_zero])
      rw [this, ← h₁]
    | succ j =>
      simp only [List.get?_cons_succ] at h₁ h₂
      exact ih _ _ _ _ j c₁ c₂ h₁ h₂

/-- Count of the events of kind `t` with timestamp in `[a, b)`. -/
def contaEm (t : TipoEvento) (a b : Int) (l : List Evento) : Nat :=
  l.countP fun e => decide (e.tipo = t) && (decide (a ≤ e.data) && decide (e.data < b))

theorem replayHora_fst (evs : List Evento) :
    ∀ (linha : Int) (dentro : Finset String) (mx mn : Int),
      (replayHora evs linha dentro mx mn).1 =
        linha + (evs.countP fun e => decide (e.tipo = TipoEvento.entrada))
          - (evs.countP fun e => decide (e.tipo = TipoEvento.saida)) := by
  induction evs with
  | nil => intro linha dentro mx mn; simp [replayHora]
  | cons e rest ih =>
    intro linha dentro mx mn
    rw [replayHora]
    cases he : e.tipo with
    | entrada =>
      rw [ih]
      simp only [passoContagem, he, List.countP_cons]
      simp [he]
      omega
    | saida =>
      rw [ih]
      simp only [passoContagem, he, List.countP_cons]
      simp [he]
      omega

theorem contaEm_split (t : TipoEvento) (a b c : Int) (hab : a ≤ b) (hbc : b ≤ c)
    (l : List Evento) :
    contaEm t a c l = contaEm t a b l + contaEm t b c l := by
  induction l with
  | nil => rfl
  | cons e rest ih =>
    unfold contaEm at ih ⊢
    rw [List.countP_cons, List.countP_cons, List.countP_cons]
    by_cases ht : e.tipo = t
    · by_cases h1 : a ≤ e.data
      · by_cases h2 : e.data < b
        · have h3 : e.data < c := lt_of_lt_of_le h2 hbc
          have h4 : ¬ b ≤ e.data := not_le.2 h2
          simp [ht, h1, h2, h3, h4, ih]
          omega
        · have h4 : b ≤ e.data := not_lt.1 h2
          by_cases h3 : e.data < c
          · simp [ht, h1, h2, h3, h4, ih]
            omega
          · simp [ht, h1, h2, h3, h4, ih]
      · have h5 : ¬ b ≤ e.data := fun hb => h1 (le_trans hab hb)
        simp [ht, h1, h5, ih]
    · simp [ht, ih]

theorem replayHora_fst_bucket (eventos : List Evento) (horaIni linha : Int)
    (dentro : Finset String) :
    (replayHora (eventos.filter fun e => horaIni ≤ e.data && e.data < horaIni + 3600)
        linha dentro linha linha).1 =
      linha + (contaEm TipoEvento.entrada horaIni (horaIni + 3600) eventos : Int)
        - (contaEm TipoEvento.saida horaIni (horaIni + 3600) eventos : Int) := by
  rw [replayHora_fst]
  unfold contaEm
  rw [List.countP_filter, List.countP_filter]

theorem resumoAux_fim (eventos : List Evento) (poi : String) :
    ∀ (n : Nat) (horaIni linha : Int) (dentro : Finset String) (fimAnterior : Int)
      (k : Nat) (c : Candle),
      (resumoAux eventos poi n horaIni linha dentro fimAnterior).get? k = some c →
      c.fim = linha
        + (contaEm TipoEvento.entrada horaIni (horaIni + 3600 * (k + 1)) eventos : Int)
        - (contaEm TipoEvento.saida horaIni (horaIni + 3600 * (k + 1)) eventos : Int) := by
  intro n
  induction n with
  | zero =>
    intro horaIni linha dentro fimAnterior k c h
    simp [resumoAux] at h
  | succ m ih =>
    intro horaIni linha dentro fimAnterior k c h
    rw [resumoAux] at h
    cases k with
    | zero =>
      simp only [List.get?_cons_zero, Option.some.injEq] at h
      rw [← h]
      simpa using replayHora_fst_bucket eventos horaIni linha dentro
    | succ j =>
      simp only [List.get?_cons_succ] at h
      have hrec := ih (horaIni + 3600) _ _ _ j c h
      rw [replayHora_fst_bucket eventos horaIni linha dentro] at hrec
      have harg : horaIni + 3600 + 3600 * ((j : Int) + 1) =
          horaIni + 3600 * ((j : Int) + 1 + 1) := by ring
      rw [harg] at hrec
      have hcast : ((j + 1 : Nat) : Int) + 1 = (j : Int) + 1 + 1 := by
        push_cast
        ring
      rw [hrec, hcast,
        contaEm_split TipoEvento.entrada horaIni (horaIni + 3600)
          (horaIni + 3600 * ((j : Int) + 1 + 1)) (by omega) (by omega) eventos,
        contaEm_split TipoEvento.saida horaIni (horaIni + 3600)
          (horaIni + 3600 * ((j : Int) + 1 + 1)) (by omega) (by omega) eventos]
      omega

/-- One consolidated group-hour row of `_gerar_dados_sentinela_grupo`
(`Hora`, `Grupo`, the `';'`-split of `Veículos no Grupo`, `Detalhes_POIs`). -/
structure LinhaGrupo where
  hora : Int
  grupo : String
  veiculosGrupo : List String
  detalhes : String
  deriving DecidableEq, Repr

/-- Python `v.strip()` on a plate string. -/
def placaLimpa (v : String) : List Char := tiraEspacos v.toList

/-- The `n_veiculos` column: count the non-blank plates of the
`';'`-split membership string. -/
def nVeiculos (r : LinhaGrupo) : Nat :=
  (r.veiculosGrupo.filter fun v => ¬ placaLimpa v = []).length

/-- Step 3 of `identificar_desvios_grupo`: keep the hours whose
consolidated vehicle count reaches the group threshold, sorted
ascending by hour. -/
def filtrarDesvios (threshold : Nat) (rows : List LinhaGrupo) : List LinhaGrupo :=
  ordenaPor (fun r => r.hora) (rows.filter fun r => threshold ≤ nVeiculos r)

/-- The escalation step: level 1 when there is no prior flagged hour or
the gap since it exceeds one hour, otherwise the previous level plus one
capped at 4. -/
def nivelSeguinte (ultimoAlerta : Option Int) (nivel : Nat) (horaAtual : Int) : Nat :=
  match ultimoAlerta with
  | none => 1
  | some ultimo => if horaAtual - ultimo > 3600 then 1 else min (nivel + 1) 4

/-- The levels the escalation loop assigns to the qualifying hours in
order, threading (`ultimo_alerta`, `nivel`); `ultimo_alerta` is updated to
the current hour at every step. -/
def niveisAux (ultimoAlerta : Option Int) (nivel : Nat) : List Int → List Nat
  | [] => []
  | h :: rest =>
    let n := nivelSeguinte ultimoAlerta nivel h
    n :: niveisAux (some h) n rest

/-- The level sequence for a sorted qualifying-hour list, from the initial
state (`ultimo_alerta = None`, `nivel = 0`). -/
def niveis (hs : List Int) : List Nat := niveisAux none 0 hs

/-- `_gerar_titulo_alerta_grupo`: the idempotency key of an alert batch.
The `strftime` date and time components are abstracted as the underlying
timestamp value (both renderings are injective per second). -/
def gerarTituloAlertaGrupo (unidade grupo : String) (hora : Int) (nivel : Nat) :
    String :=
  let grupoLimpo := ((grupo.replace " " "").replace "ç" "c").replace "ã" "a"
  s!"{unidade}_{grupoLimpo}_N{nivel}_{hora}"

/-- One deviation alert row. -/
structure Alerta where
  titulo : String
  placa : String
  pontoDeInteresse : String
  detalhes : String
  dataHoraDesvio : Int
  dataHoraEntrada : Option Int
  tempo : Option ℚ
  nivel : String
  grupo : String
  deriving DecidableEq, Repr

/-- Step 4 of `identificar_desvios_grupo`: walk the qualifying hours with
the escalation state, emitting one alert per non-blank plate of the
hour's consolidated membership. -/
def gerarAlertasAux (unidade grupo : String) (ultimoAlerta : Option Int)
    (nivel : Nat) : List LinhaGrupo → List Alerta
  | [] => []
  | row :: rest =>
    let n := nivelSeguinte ultimoAlerta nivel row.hora
    let titulo := gerarTituloAlertaGrupo unidade grupo row.hora n
    (row.veiculosGrupo.filterMap fun v =>
      if placaLimpa v = [] then none
      else some
        { titulo := titulo
          placa := (placaLimpa v).asString
          pontoDeInteresse := grupo
          detalhes := row.detalhes
          dataHoraDesvio := row.hora
          dataHoraEntrada := none
          tempo := none
          nivel := s!"Tratativa N{n}"
          grupo := grupo })
      ++ gerarAlertasAux unidade grupo (some row.hora) n rest

/-- `buscar_hora_entrada_grupo`: the vehicle's most recent arrival at any
POI of the alert's group at or before the breach timestamp. -/
def buscarHoraEntradaGrupo (poisDoGrupo : String → List String)
    (entradas : List Evento) (a : Alerta) : Option Int :=
  ((entradas.filter fun e =>
      e.veiculo == a.placa && (poisDoGrupo a.grupo).contains e.poi
        && decide (e.data ≤ a.dataHoraDesvio)).map fun e => e.data).max?

/-- Enrich one alert: fill `Data_Hora_Entrada` from the arrival history
and `Tempo` as hours elapsed from that arrival to the wall clock `now`
(`datetime.now()`), rounded to 2 decimals; both stay empty when no
arrival is found. -/
def enriqueceUm (now : Int) (poisDoGrupo : String → List String)
    (entradas : List Evento) (a : Alerta) : Alerta :=
  let ent := buscarHoraEntradaGrupo poisDoGrupo entradas a
  { a with
    dataHoraEntrada := ent
    tempo := ent.map fun t => round2 (((now - t : Int) : ℚ) / 3600) }

/-- `_enriquecer_alertas_entrada_grupo`: restrict the candle history to
arrival events and enrich every alert. -/
def enriquecerAlertasEntradaGrupo (now : Int) (poisDoGrupo : String → List String)
    (candles : List Evento) (alertas : List Alerta) : List Alerta :=
  let entradas := candles.filter fun e => decide (e.tipo = TipoEvento.entrada)
  alertas.map (enriqueceUm now poisDoGrupo entradas)

/-- Steps 3, 4 and the enrichment of `identificar_desvios_grupo` over an
already consolidated group series: the full alert batch of one run.  The
wall clock `now` is the implicit `datetime.now()` of the source made an
explicit input. -/
def identificarDesviosGrupo (unidade grupo : String) (threshold : Nat)
    (now : Int) (poisDoGrupo : String → List String) (candles : List Evento)
    (rows : List LinhaGrupo) : List Alerta :=
  enriquecerAlertasEntradaGrupo now poisDoGrupo candles
    (gerarAlertasAux unidade grupo none 0 (filtrarDesvios threshold rows))

theorem agrupar_nil (mapa : String → Option String) :
    agruparRegistrosConsecutivos mapa [] = [] := by
  rw [agruparRegistrosConsecutivos]

theorem agrupar_cons (mapa : String → Option String) (r : RawVisit)
    (rs : List RawVisit) :
    agruparRegistrosConsecutivos mapa (r :: rs) =
      stayDe mapa r ((spanRun r.veiculo r.ponto rs).1.getLastD r) ::
        agruparRegistrosConsecutivos mapa (spanRun r.veiculo r.ponto rs).2 := by
  rw [agruparRegistrosConsecutivos]

theorem chunksBy_nil : chunksBy [] = [] := by rw [chunksBy]

theorem chunksBy_cons (r : RawVisit) (rs : List RawVisit) :
    chunksBy (r :: rs) =
      (r :: rs.takeWhile (mesmoVeiculoPonto r.veiculo r.ponto)) ::
        chunksBy (rs.dropWhile (mesmoVeiculoPonto r.veiculo r.ponto)) := by
  rw [chunksBy]

/-- A default record for `headD` / `getLastD` (never selected on the
nonempty chunks). -/
def visitaPadrao : RawVisit := ⟨"", "", 0, 0, ""⟩

/-- C1.  The stay aggregator produces one stay per maximal run of
consecutive records sharing the same (vehicle, POI): the runs partition
the input in order, every record of a run shares the key, adjacent runs
have different keys (a new stay begins exactly at each record whose key
differs from its predecessor), and each stay collapses its run with entry
from the first record and exit from the last. -/
theorem c1_agrupamento_por_corridas (mapa : String → Option String)
    (l : List RawVisit) :
    (chunksBy l).flatten = l
    ∧ (∀ c ∈ chunksBy l, c ≠ [] ∧ ∀ a ∈ c, ∀ b ∈ c, mesmaChave a b)
    ∧ List.Chain' (fun c₁ c₂ => ∀ a ∈ c₁, ∀ b ∈ c₂, ¬ mesmaChave a b) (chunksBy l)
    ∧ agruparRegistrosConsecutivos mapa l =
        (chunksBy l).map (colapsa mapa visitaPadrao)
    ∧ ∀ c ∈ chunksBy l,
        (colapsa mapa visitaPadrao c).entrada = (c.headD visitaPadrao).entrada
        ∧ (colapsa mapa visitaPadrao c).saida = (c.getLastD visitaPadrao).saida := by
  refine ⟨chunksBy_flatten l, ?_, chunksBy_boundary l,
    agrupar_eq_map_colapsa mapa visitaPadrao l, ?_⟩
  · intro c hc
    exact ⟨chunksBy_ne_nil l c hc, chunksBy_homog l c hc⟩
  · intro c _
    exact ⟨rfl, rfl⟩

/-- A concrete POI → group configuration for witnesses. -/
def mapa₀ : String → Option String := fun p =>
  if p = "P" then some "Carregamento" else none

/-- Concrete sorted raw rows: two consecutive records of vehicle `A` at
POI `P`, then one of vehicle `B`. -/
def visitas₀ : List RawVisit :=
  [⟨"A", "P", 0, 3600, ""⟩, ⟨"A", "P", 3600, 7200, ""⟩, ⟨"B", "P", 100, 200, ""⟩]

theorem c1_agrupamento_por_corridas_witness :
    (chunksBy visitas₀).flatten = visitas₀
    ∧ agruparRegistrosConsecutivos mapa₀ visitas₀ =
        (chunksBy visitas₀).map (colapsa mapa₀ visitaPadrao)
    ∧ mesmaChave ⟨"A", "P", 0, 3600, ""⟩ ⟨"A", "P", 3600, 7200, ""⟩
    ∧ (colapsa mapa₀ visitaPadrao
        [⟨"A", "P", 0, 3600, ""⟩, ⟨"A", "P", 3600, 7200, ""⟩]).entrada = 0 := by
  have h := c1_agrupamento_por_corridas mapa₀ visitas₀
  have hchunk : [(⟨"A", "P", 0, 3600, ""⟩ : RawVisit), ⟨"A", "P", 3600, 7200, ""⟩]
      ∈ chunksBy visitas₀ := by
    have he : chunksBy visitas₀ =
        [[⟨"A", "P", 0, 3600, ""⟩, ⟨"A", "P", 3600, 7200, ""⟩],
         [⟨"B", "P", 100, 200, ""⟩]] := by
      simp +decide [visitas₀, chunksBy_cons, chunksBy_nil, mesmoVeiculoPonto]
    rw [he]
    simp
  refine ⟨h.1, h.2.2.2.1, ?_, ?_⟩
  · exact (h.2.1 _ hchunk).2 _ (by simp) _ (by simp)
  · have := (h.2.2.2.2 _ hchunk).1
    simpa using this

/-- C7.  Every stay the aggregator produces from well-formed rows (each
row has exit at or after entry) sorted by (vehicle, entry) satisfies
exit ≥ entry, and its stored `Tempo (h)` is the dwell (exit − entry) in
hours rounded to 5 decimals. -/
theorem c7_duracao_nao_negativa (mapa : String → Option String)
    (l : List RawVisit)
    (hwf : ∀ r ∈ l, r.entrada ≤ r.saida)
    (hsorted : l.Chain' fun a b => a.veiculo = b.veiculo → a.entrada ≤ b.entrada) :
    ∀ s ∈ agruparRegistrosConsecutivos mapa l,
      s.entrada ≤ s.saida
      ∧ s.tempo = round5 (((s.saida - s.entrada : Int) : ℚ) / 3600) := by
  intro s hs
  rw [agrupar_eq_map_colapsa mapa visitaPadrao l] at hs
  obtain ⟨c, hc, hcol⟩ := List.mem_map.1 hs
  have hne := chunksBy_ne_nil l c hc
  have hinfix := chunksBy_infix l c hc
  have hchain : c.Chain' fun a b => a.veiculo = b.veiculo → a.entrada ≤ b.entrada :=
    hsorted.infix hinfix
  have hhomog := chunksBy_homog l c hc
  have hmono := entrada_headD_le_getLastD c hchain hhomog hne visitaPadrao
  have hlastmem : c.getLastD visitaPadrao ∈ l :=
    hinfix.sublist.mem (mem_getLastD hne visitaPadrao)
  have hlast := hwf _ hlastmem
  subst hcol
  constructor
  · calc (colapsa mapa visitaPadrao c).entrada
        = (c.headD visitaPadrao).entrada := rfl
      _ ≤ (c.getLastD visitaPadrao).entrada := hmono
      _ ≤ (c.getLastD visitaPadrao).saida := hlast
      _ = (colapsa mapa visitaPadrao c).saida := rfl
  · rfl

theorem c7_duracao_nao_negativa_witness :
    ∃ s, s ∈ agruparRegistrosConsecutivos mapa₀ visitas₀
      ∧ s.entrada ≤ s.saida
      ∧ s.tempo = round5 (((s.saida - s.entrada : Int) : ℚ) / 3600) := by
  have h := c7_duracao_nao_negativa mapa₀ visitas₀ (by decide)
    (by rw [visitas₀]
        refine List.chain'_cons.2 ⟨fun _ => by norm_num, List.chain'_cons.2
          ⟨fun hab => ?_, List.chain'_singleton _⟩⟩
        simp at hab)
  have he : agruparRegistrosConsecutivos mapa₀ visitas₀ =
      [stayDe mapa₀ ⟨"A", "P", 0, 3600, ""⟩ ⟨"A", "P", 3600, 7200, ""⟩,
       stayDe mapa₀ ⟨"B", "P", 100, 200, ""⟩ ⟨"B", "P", 100, 200, ""⟩] := by
    simp +decide [visitas₀, agrupar_cons, agrupar_nil, spanRun, mesmoVeiculoPonto]
  refine ⟨stayDe mapa₀ ⟨"A", "P", 0, 3600, ""⟩ ⟨"A", "P", 3600, 7200, ""⟩, ?_, ?_⟩
  · rw [he]; simp
  · exact h _ (by rw [he]; simp)

/-- C2.  For a stay of a loading group (loading or factory variant), the
trajectory calculator's value at that position is the forward scan over
the subsequent stays; the scan uses only the first unloading/terminal
stay reached while still on the same vehicle (setting entry − exit in
hours rounded to 5 decimals when entry ≥ exit, else 0), stops with 0 at
the first stay of a different vehicle, and yields 0 when no unloading
stay of the same vehicle occurs. -/
theorem c2_trajeto_carregado (ss : List Stay) (i : Nat) (s : Stay)
    (hs : ss.get? i = some s) (hc : grupoCargaB s.grupo = true) :
    ((calcularTrajetos ss).get? i = some (aplicaTrajetoUm s (ss.drop (i + 1)))
      ∧ (aplicaTrajetoUm s (ss.drop (i + 1))).trajetoCarregado =
          buscaTrajetoCarregado s.veiculo s.saida (ss.drop (i + 1)))
    ∧ (∀ pre (m : Stay) post, ss.drop (i + 1) = pre ++ m :: post →
        (∀ p ∈ pre, p.veiculo = s.veiculo ∧ grupoDescargaB p.grupo = false) →
        m.veiculo = s.veiculo → grupoDescargaB m.grupo = true →
        buscaTrajetoCarregado s.veiculo s.saida (ss.drop (i + 1)) =
          if m.entrada ≥ s.saida then
            round5 (((m.entrada - s.saida : Int) : ℚ) / 3600)
          else 0)
    ∧ (∀ pre (d : Stay) post, ss.drop (i + 1) = pre ++ d :: post →
        (∀ p ∈ pre, p.veiculo = s.veiculo ∧ grupoDescargaB p.grupo = false) →
        d.veiculo ≠ s.veiculo →
        buscaTrajetoCarregado s.veiculo s.saida (ss.drop (i + 1)) = 0)
    ∧ ((∀ p ∈ ss.drop (i + 1), p.veiculo = s.veiculo →
          grupoDescargaB p.grupo = false) →
        buscaTrajetoCarregado s.veiculo s.saida (ss.drop (i + 1)) = 0) := by
  refine ⟨⟨?_, ?_⟩, ?_, ?_, ?_⟩
  · rw [calcularTrajetos_get?, hs]; rfl
  · simp [aplicaTrajetoUm, hc]
  · intro pre m post hdec hpre hv hg
    rw [hdec]
    exact buscaTrajetoCarregado_primeiro s.veiculo s.saida pre m post hpre hv hg
  · intro pre d post hdec hpre hv
    rw [hdec]
    exact buscaTrajetoCarregado_outro_veiculo s.veiculo s.saida pre d post hpre hv
  · exact buscaTrajetoCarregado_sem_match s.veiculo s.saida _

/-- Concrete stays for the C2 witness: a loading stay of vehicle `A`
followed by an unloading stay of `A` entering 1800 s after the exit. -/
def estadias₀ : List Stay :=
  [⟨"A", "P", 0, 3600, "Carregamento", "", 1, 0, 0⟩,
   ⟨"A", "Q", 5400, 9000, "Descarregamento", "", 1, 0, 0⟩]

theorem c2_trajeto_carregado_witness :
    (calcularTrajetos estadias₀).get? 0 =
      some (aplicaTrajetoUm ⟨"A", "P", 0, 3600, "Carregamento", "", 1, 0, 0⟩
        (estadias₀.drop (0 + 1)))
    ∧ (aplicaTrajetoUm ⟨"A", "P", 0, 3600, "Carregamento", "", 1, 0, 0⟩
        (estadias₀.drop (0 + 1))).trajetoCarregado =
      buscaTrajetoCarregado "A" 3600 (estadias₀.drop (0 + 1))
    ∧ buscaTrajetoCarregado "A" 3600 (estadias₀.drop (0 + 1)) =
      round5 (((1800 : Int) : ℚ) / 3600) := by
  have h := c2_trajeto_carregado estadias₀ 0
    ⟨"A", "P", 0, 3600, "Carregamento", "", 1, 0, 0⟩ (by decide) (by decide)
  refine ⟨h.1.1, h.1.2, ?_⟩
  have hb := h.2.1 [] ⟨"A", "Q", 5400, 9000, "Descarregamento", "", 1, 0, 0⟩ []
    (by decide) (by simp) (by decide) (by decide)
  have hb' : buscaTrajetoCarregado "A" 3600 (estadias₀.drop (0 + 1)) =
      if (5400 : Int) ≥ 3600 then round5 (((5400 - 3600 : Int) : ℚ) / 3600)
      else 0 := hb
  rw [hb', if_pos (by norm_num)]
  norm_num

/-- C3.  A stay whose observation matches (case-insensitively) one of the
fixed still-present phrases contributes no departure event to the POI's
output event sequence (provided every row that would generate that same
departure event also matches), while its arrival event is still emitted. -/
theorem c3_supressao_falsa_saida (poi : String) (rows : List RawVisit)
    (r : RawVisit) (hr : r ∈ rows)
    (hmatch : veiculoAindaEstaNoPoi r.obs = true)
    (huniq : ∀ r' ∈ rows, r'.veiculo = r.veiculo → r'.saida = r.saida →
      veiculoAindaEstaNoPoi r'.obs = true) :
    (⟨r.veiculo, r.saida, .saida, poi⟩ : Evento) ∉ eventosDe poi rows
    ∧ (⟨r.veiculo, r.entrada, .entrada, poi⟩ : Evento) ∈ eventosDe poi rows := by
  constructor
  · intro hmem
    rw [eventosDe, mem_ordenaPor, List.mem_append] at hmem
    rcases hmem with hmem | hmem
    · obtain ⟨r', _, he⟩ := List.mem_map.1 hmem
      exact absurd (congrArg Evento.tipo he).symm (by simp)
    · rw [eventosSaida_eq_filter_map] at hmem
      obtain ⟨r', hr', he⟩ := List.mem_map.1 hmem
      obtain ⟨hr'mem, hr'keep⟩ := List.mem_filter.1 hr'
      have hv : r'.veiculo = r.veiculo := congrArg Evento.veiculo he
      have hsai : r'.saida = r.saida := congrArg Evento.data he
      have := huniq r' hr'mem hv hsai
      simp [this] at hr'keep
  · rw [eventosDe, mem_ordenaPor, List.mem_append]
    exact Or.inl (List.mem_map.2 ⟨r, hr, rfl⟩)

/-- Concrete rows for the C3 witness: vehicle `A` has a still-present
observation, vehicle `B` a plain one. -/
def visitas₁ : List RawVisit :=
  [⟨"A", "P", 0, 7200, "VEÍCULO PERMANECEU NO POI"⟩,
   ⟨"B", "P", 600, 3000, "ok"⟩]

theorem c3_supressao_falsa_saida_witness :
    (⟨"A", 7200, .saida, "P"⟩ : Evento) ∉ eventosDe "P" visitas₁
    ∧ (⟨"A", 0, .entrada, "P"⟩ : Evento) ∈ eventosDe "P" visitas₁ := by
  have h := c3_supressao_falsa_saida "P" visitas₁
    ⟨"A", "P", 0, 7200, "VEÍCULO PERMANECEU NO POI"⟩ (by decide) (by decide)
    (by decide)
  exact h

/-- C4.  The escalation loop assigns level 1 when there is no prior
flagged hour or the gap since it exceeds one hour, otherwise the
previous level plus one capped at 4, and always threads the current hour
on as the new last flagged hour; in particular hours `[H, H+2h]` yield
levels `[1, 1]` and `[H, H+0.5h, H+1h]` yield `[1, 2, 3]`. -/
theorem c4_escalonamento (H : Int) :
    (∀ (ultimo : Option Int) (nivel : Nat) (h : Int) (rest : List Int),
        niveisAux ultimo nivel (h :: rest) =
          nivelSeguinte ultimo nivel h ::
            niveisAux (some h) (nivelSeguinte ultimo nivel h) rest)
    ∧ (∀ nivel h, nivelSeguinte none nivel h = 1)
    ∧ (∀ ultimo nivel h, h - ultimo > 3600 →
        nivelSeguinte (some ultimo) nivel h = 1)
    ∧ (∀ ultimo nivel h, ¬ h - ultimo > 3600 →
        nivelSeguinte (some ultimo) nivel h = min (nivel + 1) 4)
    ∧ niveis [H, H + 7200] = [1, 1]
    ∧ niveis [H, H + 1800, H + 3600] = [1, 2, 3] := by
  refine ⟨fun _ _ _ _ => rfl, fun _ _ => rfl, ?_, ?_, ?_, ?_⟩
  · intro ultimo nivel h hgap
    simp [nivelSeguinte, hgap]
  · intro ultimo nivel h hgap
    simp [nivelSeguinte, hgap]
  · have h1 : H + 7200 - H > 3600 := by omega
    simp [niveis, niveisAux, nivelSeguinte, h1]
  · have h1 : ¬ H + 1800 - H > 3600 := by omega
    have h2 : ¬ H + 3600 - (H + 1800) > 3600 := by omega
    simp [niveis, niveisAux, nivelSeguinte, h1, h2]

theorem c4_escalonamento_witness :
    nivelSeguinte (some 0) 1 7200 = 1
    ∧ nivelSeguinte (some 0) 1 1800 = min (1 + 1) 4
    ∧ niveis [0, 7200] = [1, 1]
    ∧ niveis [0, 1800, 3600] = [1, 2, 3] :=
  ⟨(c4_escalonamento 0).2.2.1 0 1 7200 (by omega),
   (c4_escalonamento 0).2.2.2.1 0 1 1800 (by omega),
   (c4_escalonamento 0).2.2.2.2.1,
   (c4_escalonamento 0).2.2.2.2.2⟩

/-- C5.  In the hourly occupancy series, the occupants-at-end of each
bucket equals the occupants-at-start of the next bucket, and the first
bucket starts at occupancy 0. -/
theorem c5_conservacao_ocupacao (poi : String) (evs : List Evento) :
    (∀ (k : Nat) (c₁ c₂ : Candle),
      (resumoPorHora poi evs).get? k = some c₁ →
      (resumoPorHora poi evs).get? (k + 1) = some c₂ →
      c₂.inicio = c₁.fim)
    ∧ (∀ c : Candle, (resumoPorHora poi evs).get? 0 = some c → c.inicio = 0) := by
  constructor
  · intro k c₁ c₂ h₁ h₂
    rw [resumoPorHora] at h₁ h₂
    cases hmin : (evs.map fun e => e.data).min? with
    | none => rw [hmin] at h₁; simp at h₁
    | some tmin =>
      cases hmax : (evs.map fun e => e.data).max? with
      | none => rw [hmin, hmax] at h₁; simp at h₁
      | some tmax =>
        rw [hmin, hmax] at h₁ h₂
        exact resumoAux_adjacente evs poi _ _ _ _ _ k c₁ c₂ h₁ h₂
  · intro c h
    rw [resumoPorHora] at h
    cases hmin : (evs.map fun e => e.data).min? with
    | none => rw [hmin] at h; simp at h
    | some tmin =>
      cases hmax : (evs.map fun e => e.data).max? with
      | none => rw [hmin, hmax] at h; simp at h
      | some tmax =>
        rw [hmin, hmax] at h
        have h' : (resumoAux evs poi
            ((ceilHora tmax - floorHora tmin) / 3600).toNat
            (floorHora tmin) 0 ∅ 0).get? 0 = some c := h
        rw [List.get?_zero] at h'
        exact resumoAux_head_inicio evs poi _ _ _ _ _ c h' 

/-- Concrete events for the C5 witness: one arrival, one departure an
hour and a half later. -/
def eventos₀ : List Evento :=
  [⟨"A", 0, .entrada, "P"⟩, ⟨"A", 5400, .saida, "P"⟩]

theorem c5_conservacao_ocupacao_witness :
    (resumoPorHora "P" eventos₀).get? 0 = some ⟨3600, 0, 1, 1, 0, "P", {"A"}⟩
    ∧ (resumoPorHora "P" eventos₀).get? 1 = some ⟨7200, 1, 0, 1, 0, "P", ∅⟩
    ∧ (⟨7200, 1, 0, 1, 0, "P", ∅⟩ : Candle).inicio =
        (⟨3600, 0, 1, 1, 0, "P", {"A"}⟩ : Candle).fim
    ∧ (⟨3600, 0, 1, 1, 0, "P", {"A"}⟩ : Candle).inicio = 0 := by
  refine ⟨by decide, by decide, ?_, ?_⟩
  · exact (c5_conservacao_ocupacao "P" eventos₀).1 0 _ _ (by decide) (by decide)
  · exact (c5_conservacao_ocupacao "P" eventos₀).2 _ (by decide)

/-- C6.  The membership snapshot recorded after each event of the sorted
event walk equals the fold of the events processed so far (arrival
inserts the vehicle, departure erases it), and a departure for a vehicle
not currently present leaves the set unchanged. -/
theorem c6_instantaneo_consistente (evs : List Evento) (k : Nat)
    (hk : k < evs.length) :
    (instantaneos ∅ evs).get? k =
      some ((evs.take (k + 1)).foldl aplicaEvento ∅)
    ∧ ∀ (dentro : Finset String) (v p : String) (t : Int),
        v ∉ dentro → aplicaEvento dentro ⟨v, t, .saida, p⟩ = dentro := by
  constructor
  · rw [instantaneos_get?, if_pos hk]
  · intro dentro v p t hv
    exact Finset.erase_eq_of_not_mem hv

theorem c6_instantaneo_consistente_witness :
    (instantaneos ∅ eventos₀).get? 1 =
      some ((eventos₀.take 2).foldl aplicaEvento ∅)
    ∧ aplicaEvento ∅ ⟨"B", 0, .saida, "P"⟩ = ∅ := by
  have h := c6_instantaneo_consistente eventos₀ 1 (by decide)
  exact ⟨h.1, h.2 ∅ "B" "P" 0 (by simp)⟩

/-- C8.  Raising the group threshold never adds a qualifying row or hour:
everything the detector keeps at the higher threshold it also keeps at
the lower one. -/
theorem c8_monotonia_threshold (t₁ t₂ : Nat) (h : t₁ ≤ t₂)
    (rows : List LinhaGrupo) :
    (∀ r ∈ filtrarDesvios t₂ rows, r ∈ filtrarDesvios t₁ rows)
    ∧ ∀ x ∈ (filtrarDesvios t₂ rows).map (fun r => r.hora),
        x ∈ (filtrarDesvios t₁ rows).map (fun r => r.hora) := by
  have hrow : ∀ r ∈ filtrarDesvios t₂ rows, r ∈ filtrarDesvios t₁ rows := by
    intro r hr
    rw [filtrarDesvios, mem_ordenaPor, List.mem_filter] at hr ⊢
    exact ⟨hr.1, by
      have := of_decide_eq_true hr.2
      exact decide_eq_true (le_trans h this)⟩
  refine ⟨hrow, ?_⟩
  intro x hx
  obtain ⟨r, hr, hxr⟩ := List.mem_map.1 hx
  exact List.mem_map.2 ⟨r, hrow r hr, hxr⟩

/-- Concrete consolidated rows for the C8 witness. -/
def linhas₀ : List LinhaGrupo :=
  [⟨3600, "G", ["A", "B"], "P(2)"⟩, ⟨7200, "G", ["A"], "P(1)"⟩]

theorem c8_monotonia_threshold_witness :
    ⟨3600, "G", ["A", "B"], "P(2)"⟩ ∈ filtrarDesvios 1 linhas₀
    ∧ (3600 : Int) ∈ (filtrarDesvios 1 linhas₀).map (fun r => r.hora) := by
  have h := c8_monotonia_threshold 1 2 (by decide) linhas₀
  constructor
  · exact h.1 _ (by decide)
  · exact h.2 3600 (by decide)

/-- Treated rows at one POI whose merged stays overlap in time: the
replay sees two arrivals of the same vehicle before its departures. -/
def visitas₂ : List RawVisit :=
  [⟨"A", "P", 36000, 37800, ""⟩, ⟨"A", "P", 36600, 41400, ""⟩]

theorem c10_contraexemplo :
    ((resumoPorHora "P" (eventosDe "P" visitas₂)).get? 0).map
        (fun c => (c.fim, (c.presentes.card : Int))) = some (1, 0)
    ∧ (1 : Int) ≠ 0 := by
  constructor
  · decide
  · decide

/-- C10 (amended).  The occupants-at-end of each hourly bucket equals the
number of arrival events minus departure events replayed from the
timeline start through that bucket — not necessarily the membership
snapshot's size, because a departure for a vehicle not currently present
leaves the snapshot unchanged while still decrementing the count. -/
theorem c10_fim_e_saldo_eventos :
    (∀ (poi : String) (evs : List Evento) (tmin : Int) (k : Nat) (c : Candle),
        (evs.map fun e => e.data).min? = some tmin →
        (resumoPorHora poi evs).get? k = some c →
        c.fim =
          (contaEm TipoEvento.entrada (floorHora tmin)
              (floorHora tmin + 3600 * (k + 1)) evs : Int)
            - (contaEm TipoEvento.saida (floorHora tmin)
                (floorHora tmin + 3600 * (k + 1)) evs : Int))
    ∧ ∀ (linha : Int) (dentro : Finset String) (v p : String) (t : Int),
        v ∉ dentro →
        passoContagem linha dentro ⟨v, t, .saida, p⟩ = (linha - 1, dentro) := by
  constructor
  · intro poi evs tmin k c hmin h
    rw [resumoPorHora] at h
    cases hmax : (evs.map fun e => e.data).max? with
    | none =>
      rw [List.max?_eq_none_iff] at hmax
      rw [hmax] at hmin
      simp at hmin
    | some tmax =>
      rw [hmin, hmax] at h
      have h' : (resumoAux evs poi
          ((ceilHora tmax - floorHora tmin) / 3600).toNat
          (floorHora tmin) 0 ∅ 0).get? k = some c := h
      have := resumoAux_fim evs poi _ (floorHora tmin) 0 ∅ 0 k c h'
      simpa using this
  · intro linha dentro v p t hv
    simp [passoContagem, Finset.erase_eq_of_not_mem hv]

/-- A single arrival inside the first hour, for the C10 witness. -/
def eventos₂ : List Evento := [⟨"A", 1800, .entrada, "P"⟩]

theorem c10_fim_e_saldo_eventos_witness :
    (⟨3600, 0, 1, 1, 0, "P", {"A"}⟩ : Candle).fim =
      (contaEm TipoEvento.entrada (floorHora 1800)
          (floorHora 1800 + 3600 * (0 + 1)) eventos₂ : Int)
        - (contaEm TipoEvento.saida (floorHora 1800)
            (floorHora 1800 + 3600 * (0 + 1)) eventos₂ : Int)
    ∧ passoContagem 5 {"A"} ⟨"B", 0, .saida, "P"⟩ = (4, {"A"}) := by
  refine ⟨c10_fim_e_saldo_eventos.1 "P" eventos₂ 1800 0 _ (by decide) (by decide), ?_⟩
  have h := c10_fim_e_saldo_eventos.2 5 {"A"} "B" "P" 0 (by decide)
  simpa using h

/-- Group → POIs configuration for the C9 counterexample. -/
def pois₀ : String → List String := fun _ => ["P"]

/-- Prior arrival history for the C9 counterexample. -/
def candles₀ : List Evento := [⟨"A", 0, .entrada, "P"⟩]

/-- One alert awaiting enrichment, for the C9 counterexample. -/
def alerta₀ : Alerta :=
  ⟨"T", "A", "G", "", 3600, none, none, "Tratativa N1", "G"⟩

theorem c9_contraexemplo :
    enriquecerAlertasEntradaGrupo 7200 pois₀ candles₀ [alerta₀] ≠
      enriquecerAlertasEntradaGrupo 10800 pois₀ candles₀ [alerta₀] := by
  intro heq
  have h := congrArg (fun l => l.map fun a => a.tempo) heq
  simp +decide [enriquecerAlertasEntradaGrupo, enriqueceUm, buscarHoraEntradaGrupo,
    pois₀, candles₀, alerta₀] at h
  norm_num [round2, round_eq] at h

/-- Every alert field except the wall-clock-dependent dwell `Tempo`. -/
def quadroSemTempo (a : Alerta) :
    String × String × String × String × Int × Option Int × String × String :=
  (a.titulo, a.placa, a.pontoDeInteresse, a.detalhes, a.dataHoraDesvio,
   a.dataHoraEntrada, a.nivel, a.grupo)

theorem quadroSemTempo_enriqueceUm (now₁ now₂ : Int)
    (pois : String → List String) (entradas : List Evento) (a : Alerta) :
    quadroSemTempo (enriqueceUm now₁ pois entradas a) =
      quadroSemTempo (enriqueceUm now₂ pois entradas a) := by
  show ((enriqueceUm now₁ pois entradas a).titulo,
      (enriqueceUm now₁ pois entradas a).placa,
      (enriqueceUm now₁ pois entradas a).pontoDeInteresse,
      (enriqueceUm now₁ pois entradas a).detalhes,
      (enriqueceUm now₁ pois entradas a).dataHoraDesvio,
      (enriqueceUm now₁ pois entradas a).dataHoraEntrada,
      (enriqueceUm now₁ pois entradas a).nivel,
      (enriqueceUm now₁ pois entradas a).grupo) =
    ((enriqueceUm now₂ pois entradas a).titulo,
      (enriqueceUm now₂ pois entradas a).placa,
      (enriqueceUm now₂ pois entradas a).pontoDeInteresse,
      (enriqueceUm now₂ pois entradas a).detalhes,
      (enriqueceUm now₂ pois entradas a).dataHoraDesvio,
      (enriqueceUm now₂ pois entradas a).dataHoraEntrada,
      (enriqueceUm now₂ pois entradas a).nivel,
      (enriqueceUm now₂ pois entradas a).grupo)
  rfl

theorem quadroSemTempo_enriquecer (now₁ now₂ : Int) (pois : String → List String)
    (candles : List Evento) (alertas : List Alerta) :
    (enriquecerAlertasEntradaGrupo now₁ pois candles alertas).map quadroSemTempo =
      (enriquecerAlertasEntradaGrupo now₂ pois candles alertas).map quadroSemTempo := by
  rw [enriquecerAlertasEntradaGrupo, enriquecerAlertasEntradaGrupo,
    List.map_map, List.map_map]
  exact List.map_congr_left fun a _ => quadroSemTempo_enriqueceUm now₁ now₂ pois _ a

/-- C9 (amended).  Two runs over the same raw input and the same
externally loaded prior state produce identical stays, events, hourly
samples and alerts provided they also observe the same wall-clock
reading; with different readings every alert field except the
dwell-hours `Tempo` is still identical. -/
theorem c9_determinismo :
    (∀ (unidade grupo : String) (th : Nat) (now : Int)
        (pois : String → List String) (candles : List Evento)
        (rows : List LinhaGrupo),
      identificarDesviosGrupo unidade grupo th now pois candles rows =
        identificarDesviosGrupo unidade grupo th now pois candles rows)
    ∧ (∀ (mapa : String → Option String) (l : List RawVisit),
        agruparRegistrosConsecutivos mapa l = agruparRegistrosConsecutivos mapa l)
    ∧ (∀ (poi : String) (rows : List RawVisit),
        gerarCandlesPoi poi rows = gerarCandlesPoi poi rows)
    ∧ (∀ (unidade grupo : String) (th : Nat) (now₁ now₂ : Int)
        (pois : String → List String) (candles : List Evento)
        (rows : List LinhaGrupo),
      (identificarDesviosGrupo unidade grupo th now₁ pois candles rows).map
          quadroSemTempo =
        (identificarDesviosGrupo unidade grupo th now₂ pois candles rows).map
          quadroSemTempo) := by
  refine ⟨fun _ _ _ _ _ _ _ => rfl, fun _ _ => rfl, fun _ _ => rfl, ?_⟩
  intro unidade grupo th now₁ now₂ pois candles rows
  exact quadroSemTempo_enriquecer now₁ now₂ pois candles _

theorem c9_determinismo_witness :
    identificarDesviosGrupo "RRP" "G" 1 7200 pois₀ candles₀ linhas₀ =
      identificarDesviosGrupo "RRP" "G" 1 7200 pois₀ candles₀ linhas₀
    ∧ (identificarDesviosGrupo "RRP" "G" 1 7200 pois₀ candles₀ linhas₀).map
        quadroSemTempo =
      (identificarDesviosGrupo "RRP" "G" 1 10800 pois₀ candles₀ linhas₀).map
        quadroSemTempo :=
  ⟨c9_determinismo.1 "RRP" "G" 1 7200 pois₀ candles₀ linhas₀,
   c9_determinismo.2.2.2 "RRP" "G" 1 7200 10800 pois₀ candles₀ linhas₀⟩
